import Mathlib

/-!
Verification of the lobby/voting session synchronization protocol of a mobile
voting app.  The app's clients coordinate through a remote key-value store
(read/write/update/delete/push over REST); this file gives a shallow embedding
of the client-side handlers that realize the protocol and proves properties of
them.

Embedding conventions:
  * A store subtree keyed by strings is an insertion-ordered association list
    (`KvMap`), matching both the JS `Record<string, T>` objects the REST layer
    returns and the store's one-entry-per-key semantics.  `writeKey` is the
    REST `PUT`: it overwrites the entry for an existing key and appends a new
    key at the end.
  * Handlers are translated from `src/app/*.tsx`, `src/services/database.ts`
    and the history screen.  Asynchronous awaited calls become sequential
    function application; calls issued together inside one `Promise.all`
    become one concurrent batch.  Transport is assumed to deliver the writes
    the handlers issue (the claims under study are about the handlers' logic,
    not about transport loss, except where a claim is itself about the
    transport-failure branches, which are then modelled explicitly).
  * JS `Array.prototype.sort` with comparator `(a, b) => b.votes - a.votes`
    is a stable descending sort (stability is guaranteed by ES2019); it is
    embedded as the stable insertion sort `sortDescByVotes`.
  * JS number arithmetic on small integer counts is exact, so vote counts are
    embedded as `Nat` / `Int`.
-/

namespace VotingApp

/-- Executable model of JS `String.prototype.trim`: drop whitespace from both
ends (written over the character list so that it evaluates by reduction). -/
def strTrim (s : String) : String :=
  ⟨((s.data.dropWhile Char.isWhitespace).reverse.dropWhile Char.isWhitespace).reverse⟩

/-- Association-list model of one level of the store's key-value namespace. -/
abbrev KvMap (α : Type) := List (String × α)

/-- First value stored under key `k`, if any (the store holds one entry per
key; the handlers below only ever create maps whose keys are distinct). -/
def lookupKey (k : String) : KvMap α → Option α
  | [] => none
  | (k2, v) :: rest => if k2 = k then some v else lookupKey k rest

/-- REST `PUT` at key `k`: overwrite the existing entry in place, or append a
new entry at the end. -/
def writeKey (k : String) (v : α) : KvMap α → KvMap α
  | [] => [(k, v)]
  | (k2, v2) :: rest => if k2 = k then (k, v) :: rest else (k2, v2) :: writeKey k v rest

/-- Number of entries stored under key `k`. -/
def countKey (k : String) (m : KvMap α) : Nat :=
  (m.filter (fun e => e.1 = k)).length

/-- Keys of a map, in snapshot order (JS `Object.keys`). -/
def keysOf (m : KvMap α) : List String := m.map (fun e => e.1)

/-- Write into a two-level subtree at `outer/inner` (e.g.
`participants/{sessionId}/{userId}`). -/
def writeNested (outer inner : String) (v : α) (m : KvMap (KvMap α)) : KvMap (KvMap α) :=
  writeKey outer (writeKey inner v ((lookupKey outer m).getD [])) m

/-- Session (lobby) record, `lobbies/{sessionId}` (src/app/waitingRoom.tsx,
interface LobbyData). -/
structure LobbyData where
  creatorId : String
  creatorName : String
  createdAt : Nat
  status : String
  code : String
deriving Repr, DecidableEq

/-- Participant record, `participants/{sessionId}/{userId}`
(src/app/waitingRoom.tsx, interface Participant).  `nameChangeRequested` is
the optional flag; `none` models the field being absent. -/
structure Participant where
  name : String
  joinedAt : Nat
  isCreator : Bool
  nameChangeRequested : Option Bool := none
deriving Repr, DecidableEq

/-- Vote record, `votes/{sessionId}/{userId}` (src/app/voting.tsx,
the `voteData` object built in `handleSubmit`). -/
structure VoteData where
  mvpName : String
  mvpComment : String
  loserName : String
  loserComment : String
  submittedAt : Nat
deriving Repr, DecidableEq

/-- User history record, `userHistory/{userId}/{sessionId}`. -/
structure HistoryEntry where
  lobbyId : String
  joinedAt : Nat
deriving Repr, DecidableEq

/-- The shared key-value namespace: the five subtrees the session protocol
touches (path layout of src/services and the screen controllers). -/
structure Store where
  lobbies : KvMap LobbyData
  lobbyCodes : KvMap String
  participants : KvMap (KvMap Participant)
  votes : KvMap (KvMap VoteData)
  userHistory : KvMap (KvMap HistoryEntry)
deriving Repr, DecidableEq

/-! ### Remote store client reads (C9)

`readViaRest` (src/app/waitingRoom.tsx lines 17-38 and its copies in the other
screens) and `readData` (src/services/database.ts lines 38-66).  The
environment of one call is made explicit: whether an authenticated user is
present, and what the underlying request did. -/

/-- Outcome of the underlying `fetch` of a REST read.  `ok body` is a 2xx
response; Firebase returns the JSON `null` body (modelled `none`) for a
missing key. -/
inductive FetchResult (α : Type) where
  | netError : FetchResult α
  | httpNotOk : Nat → FetchResult α
  | ok : Option α → FetchResult α
deriving Repr, DecidableEq

/-- REST read helper: returns `none` when there is no authenticated user, when
the fetch throws, when the response status is not ok, and when the key is
missing; otherwise the parsed body. -/
def readViaRest (authUser : Option String) (response : FetchResult α) : Option α :=
  match authUser with
  | none => none
  | some _ =>
    match response with
    | .netError => none
    | .httpNotOk _ => none
    | .ok body => body

/-- What the SDK's one-shot `onValue` subscription delivered: a snapshot
(`none` = `snapshot.exists()` false), the error callback (which covers a
missing or unauthenticated identity being denied by the store), or a throw
while setting up the subscription. -/
inductive SdkReadEvent (α : Type) where
  | snapshot : Option α → SdkReadEvent α
  | error : SdkReadEvent α
  | setupFailure : SdkReadEvent α
deriving Repr, DecidableEq

/-- SDK read (`readData` in src/services/database.ts): resolves the snapshot
value when it exists and `null` in every other case; the promise never
rejects. -/
def readData (event : SdkReadEvent α) : Option α :=
  match event with
  | .snapshot v => v
  | .error => none
  | .setupFailure => none

/-! ### Vote submission (C1)

`handleSubmit` of src/app/voting.tsx lines 189-256. -/

/-- The four text inputs of the voting form plus the `Date.now()` timestamp
taken at submission. -/
structure VoteForm where
  mvpName : String
  mvpComment : String
  loserName : String
  loserComment : String
  now : Nat
deriving Repr, DecidableEq

/-- Validation performed at the top of `handleSubmit` (and enforced again by
the submit button's `disabled` condition): both names chosen and both comments
nonempty after trimming. -/
def voteFormValid (f : VoteForm) : Bool :=
  f.mvpName != "" && (strTrim f.mvpComment) != "" && f.loserName != "" && (strTrim f.loserComment) != ""

/-- User-visible outcome of one `handleSubmit` call.  The four per-field
validation alerts are collapsed into `missingField`; `alreadyVoted` is the
"Already Voted" alert. -/
inductive SubmitOutcome where
  | missingField
  | alreadyVoted
  | submitted
deriving Repr, DecidableEq

/-- One `handleSubmit` call against the caller's `votes/{sessionId}` subtree:
validate the form, read `votes/{sessionId}/{uid}`, surface "Already Voted"
without writing when an entry exists, otherwise `PUT` the new vote. -/
def handleSubmit (votes : KvMap VoteData) (uid : String) (f : VoteForm) :
    SubmitOutcome × KvMap VoteData :=
  if voteFormValid f = false then (.missingField, votes)
  else
    match lookupKey uid votes with
    | some _ => (.alreadyVoted, votes)
    | none =>
      (.submitted,
        writeKey uid
          ⟨(strTrim f.mvpName), (strTrim f.mvpComment), (strTrim f.loserName), (strTrim f.loserComment), f.now⟩
          votes)

/-- The votes subtree after a sequence of `handleSubmit` calls issued
sequentially from the same identity. -/
def submitMany (votes : KvMap VoteData) (uid : String) (forms : List VoteForm) : KvMap VoteData :=
  forms.foldl (fun acc f => (handleSubmit acc uid f).2) votes

/-! ### Phase transitions (C2)

`handleStartVoting` (src/app/waitingRoom.tsx lines 350-368),
`handleGoToResults` (src/app/votingWaiting.tsx lines 166-176) and
`handleGoToRanking` (src/app/results.tsx lines 174-184): each issues a PATCH
of the `status` field. -/

/-- Creator's "start voting": PATCH `status = "voting"`. -/
def handleStartVoting (l : LobbyData) : LobbyData := { l with status := "voting" }

/-- Creator's "go to results": PATCH `status = "results"`. -/
def handleGoToResults (l : LobbyData) : LobbyData := { l with status := "results" }

/-- Creator's "go to ranking": PATCH `status = "ranking"`. -/
def handleGoToRanking (l : LobbyData) : LobbyData := { l with status := "ranking" }

/-- The three phase-advance operations the creator's screens expose. -/
inductive PhaseOp where
  | startVoting
  | goToResults
  | goToRanking
deriving Repr, DecidableEq

/-- Status of the phase whose screen exposes the operation: "start voting"
lives on the waiting room, "go to results" on the vote-waiting screen of the
voting phase, "go to ranking" on the results screen. -/
def opScreen : PhaseOp → String
  | .startVoting => "waiting"
  | .goToResults => "voting"
  | .goToRanking => "results"

/-- Apply one phase-advance operation to the session record. -/
def applyOp (l : LobbyData) : PhaseOp → LobbyData
  | .startVoting => handleStartVoting l
  | .goToResults => handleGoToResults l
  | .goToRanking => handleGoToRanking l

/-- Position of a status value in the lifecycle order
`waiting < voting < results < ranking`. -/
def phaseIdx : String → Nat
  | "waiting" => 0
  | "voting" => 1
  | "results" => 2
  | "ranking" => 3
  | _ => 4

/-- The issuing discipline of the claim: each operation in the sequence is
issued from the screen of the phase it leaves, i.e. while the session's status
is that screen's phase. -/
def issuedFromOwnScreen (l : LobbyData) : List PhaseOp → Prop
  | [] => True
  | op :: rest => l.status = opScreen op ∧ issuedFromOwnScreen (applyOp l op) rest

/-- The sequence of `status` values observed across a run: the initial status
followed by the status after each operation. -/
def observedStatuses (l : LobbyData) : List PhaseOp → List String
  | [] => [l.status]
  | op :: rest => l.status :: observedStatuses (applyOp l op) rest

/-! ### Vote aggregation (C3)

`calculateRankings` of the ranking screen (src/unnamed/part_005 lines 60-84)
and its "No votes" rendering (lines 238-276). -/

/-- One row of a ranking: a name and how many votes it received. -/
structure RankingEntry where
  name : String
  votes : Nat
deriving Repr, DecidableEq

/-- `counts[nm] = (counts[nm] || 0) + 1` on an insertion-ordered record:
increment in place when the name is present, append a fresh entry otherwise. -/
def bumpCount (counts : List RankingEntry) (nm : String) : List RankingEntry :=
  match counts with
  | [] => [⟨nm, 1⟩]
  | e :: rest => if e.name = nm then ⟨nm, e.votes + 1⟩ :: rest else e :: bumpCount rest nm

/-- Occurrence counts of a list of names, in first-encounter order (the
`forEach` aggregation loop over `Object.values(votes)`). -/
def countsOfNames (names : List String) : List RankingEntry :=
  names.foldl bumpCount []

/-- Insert an entry into a descending-by-votes list, after all entries with
strictly more votes and before entries with the same number (so that, folded
from the right, earlier-encountered names stay in front of equal-count
later-encountered ones, as the stable JS sort does). -/
def insertDesc (x : RankingEntry) : List RankingEntry → List RankingEntry
  | [] => [x]
  | y :: ys => if x.votes < y.votes then y :: insertDesc x ys else x :: y :: ys

/-- Stable descending sort by vote count, the embedding of
`.sort((a, b) => b.votes - a.votes)`. -/
def sortDescByVotes (l : List RankingEntry) : List RankingEntry :=
  l.foldr insertDesc []

/-- `calculateRankings`: group the votes' `mvpName`s (resp. `loserName`s),
count occurrences of each distinct name, and sort descending by count. -/
def calculateRankings (votesMap : KvMap VoteData) :
    List RankingEntry × List RankingEntry :=
  let votes := votesMap.map (fun e => e.2)
  (sortDescByVotes (countsOfNames (votes.map (fun v => v.mvpName))),
   sortDescByVotes (countsOfNames (votes.map (fun v => v.loserName))))

/-- Index of the first occurrence of a name in a list (length of the list when
absent); used to state the first-encounter tie-break. -/
def firstIdx (nm : String) : List String → Nat
  | [] => 0
  | a :: rest => if a = nm then 0 else firstIdx nm rest + 1

/-- Count looked up by name in a ranking list. -/
def lookupVotes (nm : String) : List RankingEntry → Option Nat
  | [] => none
  | e :: rest => if e.name = nm then some e.votes else lookupVotes nm rest

/-- The ranking screen's per-column branch: `ranking.length > 0 ? rows :
"No votes"`. -/
def showsNoVotes (r : List RankingEntry) : Bool := r.length == 0

/-! ### History deletion (C4)

`handleDelete` of the history screen (src/unnamed/part_001 lines 349-393):
two awaited deletes followed by a `Promise.all` of three more. -/

/-- The five keys the history deletion touches. -/
inductive DeleteTarget where
  | participantsTree
  | votesTree
  | session
  | codeIndex
  | historyEntry
deriving Repr, DecidableEq, BEq

/-- Store path of each delete, for the session being removed. -/
def deletePath (lobbyId code uid : String) : DeleteTarget → String
  | .participantsTree => "participants/" ++ lobbyId
  | .votesTree => "votes/" ++ lobbyId
  | .session => "lobbies/" ++ lobbyId
  | .codeIndex => "lobbyCodes/" ++ code
  | .historyEntry => "userHistory/" ++ uid ++ "/" ++ lobbyId

/-- Issue order of `handleDelete`: `await delete(participants)`, then
`await delete(votes)`, then one `Promise.all` issuing the session, code-index
and user-history deletes concurrently.  Each inner list is one concurrent
batch; a batch is issued only after every delete of the previous batches has
completed. -/
def historyDeleteBatches : List (List DeleteTarget) :=
  [[.participantsTree], [.votesTree], [.session, .codeIndex, .historyEntry]]

/-- Index of the batch in which a delete is issued. -/
def issueBatch (t : DeleteTarget) : Nat :=
  historyDeleteBatches.findIdx (fun b => b.contains t)

/-- `a` is issued strictly before `b`: `a`'s batch completes before `b`'s
request is sent. -/
def issuedStrictlyBefore (a b : DeleteTarget) : Prop := issueBatch a < issueBatch b

/-- The ordering the claim asserts: Participant and Vote subtrees before the
Session, the Code Index only after the Session, and the User History pointer
last. -/
def claimedHistoryDeleteOrder : Prop :=
  issuedStrictlyBefore .participantsTree .session ∧
  issuedStrictlyBefore .votesTree .session ∧
  issuedStrictlyBefore .session .codeIndex ∧
  issuedStrictlyBefore .codeIndex .historyEntry

/-! ### Waiting-room display list (C5)

The `participants` `useMemo` of src/app/waitingRoom.tsx lines 371-412. -/

/-- One rendered row of the waiting-room list.  `nameChangeRequested` is
`none` for the synthesized host row (the field is not set on it). -/
structure DisplayParticipant where
  id : String
  name : String
  isCreator : Bool
  isOnline : Bool
  nameChangeRequested : Option Bool
deriving Repr, DecidableEq

/-- The waiting-room display list: with no session snapshot the list is empty;
otherwise the host row is synthesized from the session's `creatorId` /
`creatorName` (falling back to "Host", marked offline unless the creator's own
participant entry is present) and pushed first, then the non-host participant
entries with a nonempty name are pushed in snapshot order. -/
def buildParticipants (lobby : Option LobbyData) (pd : Option (KvMap Participant)) :
    List DisplayParticipant :=
  match lobby with
  | none => []
  | some l =>
    let hostInParticipants :=
      match pd with
      | some m => (keysOf m).contains l.creatorId
      | none => false
    let host : DisplayParticipant :=
      ⟨l.creatorId, if l.creatorName == "" then "Host" else l.creatorName,
        true, hostInParticipants, none⟩
    let others :=
      match pd with
      | none => []
      | some m =>
        m.filterMap (fun e =>
          if e.1 != l.creatorId && e.2.name != "" then
            some ⟨e.1, e.2.name, false, true, some (e.2.nameChangeRequested.getD false)⟩
          else none)
    host :: others

/-- Stable insertion of a participant entry into a list kept descending by
`joinedAt` (newest first). -/
def insertNewestFirst (x : String × Participant) :
    List (String × Participant) → List (String × Participant)
  | [] => [x]
  | y :: ys => if x.2.joinedAt < y.2.joinedAt then y :: insertNewestFirst x ys else x :: y :: ys

/-- Sort participant entries newest-joined-first. -/
def sortNewestFirst (l : List (String × Participant)) : List (String × Participant) :=
  l.foldr insertNewestFirst []

/-- Modelled from the spec's words, for comparison with `buildParticipants`:
the same list but with the non-creator participants ordered
newest-joined-first, as the specification describes. -/
def specWaitingRoomList (lobby : Option LobbyData) (pd : Option (KvMap Participant)) :
    List DisplayParticipant :=
  match lobby with
  | none => []
  | some l =>
    let hostInParticipants :=
      match pd with
      | some m => (keysOf m).contains l.creatorId
      | none => false
    let host : DisplayParticipant :=
      ⟨l.creatorId, if l.creatorName == "" then "Host" else l.creatorName,
        true, hostInParticipants, none⟩
    let others :=
      match pd with
      | none => []
      | some m =>
        (sortNewestFirst m).filterMap (fun e =>
          if e.1 != l.creatorId && e.2.name != "" then
            some ⟨e.1, e.2.name, false, true, some (e.2.nameChangeRequested.getD false)⟩
          else none)
    host :: others

/-! ### Join and create session (C6, C8)

`handleJoin` (src/app/userInput.tsx lines 181-252, with the code and lobby
reads of `findLobbyByCode`, src/services/database.ts lines 175-198) and
`handleCreate` (lines 116-179). -/

/-- User-visible outcome of a join attempt. -/
inductive JoinOutcome where
  | emptyInput
  | lobbyNotFound
  | notAccepting
  | joined : String → JoinOutcome
deriving Repr, DecidableEq

/-- One `handleJoin` call: resolve the code through `lobbyCodes`, read the
session, reject unless its status is `"waiting"`, then write the caller's
participant entry and user-history entry. -/
def handleJoin (s : Store) (codeInput uid name : String) (now : Nat) :
    JoinOutcome × Store :=
  if (strTrim name) == "" || (strTrim codeInput) == "" then (.emptyInput, s)
  else
    match lookupKey (strTrim codeInput) s.lobbyCodes with
    | none => (.lobbyNotFound, s)
    | some lobbyId =>
      match lookupKey lobbyId s.lobbies with
      | none => (.lobbyNotFound, s)
      | some lobbyData =>
        if lobbyData.status != "waiting" then (.notAccepting, s)
        else
          (.joined lobbyId,
            { s with
              participants := writeNested lobbyId uid ⟨(strTrim name), now, false, none⟩ s.participants,
              userHistory := writeNested uid lobbyId ⟨lobbyId, now⟩ s.userHistory })

/-- A completed `handleCreate` call: push the new session record under the
store-generated `lobbyId`, write the code-index entry, the creator's
participant entry, and the creator's history entry. -/
def handleCreate (s : Store) (lobbyId code uid name : String) (now : Nat) : Store :=
  { s with
    lobbies := writeKey lobbyId ⟨uid, (strTrim name), now, "waiting", code⟩ s.lobbies,
    lobbyCodes := writeKey code lobbyId s.lobbyCodes,
    participants := writeNested lobbyId uid ⟨(strTrim name), now, true, none⟩ s.participants,
    userHistory := writeNested uid lobbyId ⟨lobbyId, now⟩ s.userHistory }

/-! ### Removal detection (C7)

The removal-detection effect of src/app/waitingRoom.tsx lines 202-241, run
once per polled `participants/{sessionId}` snapshot on a non-creator's device.
-/

/-- The device-local refs the effect reads and writes: `wasInLobby` and the
`hasNavigated` latch (set when the removal alert fires). -/
structure RemovalState where
  wasInLobby : Bool
  alerted : Bool
deriving Repr, DecidableEq

/-- Whether the user's id is a key of the polled snapshot (`participantIds.
includes(user.uid)`; a `null` snapshot yields an empty id list). -/
def presentIn (uid : String) (snap : Option (KvMap Participant)) : Bool :=
  match snap with
  | none => false
  | some m => (keysOf m).contains uid

/-- One run of the effect on one snapshot: skip once alerted; mark
`wasInLobby` when present; alert only when previously present and the current
snapshot is non-null and no longer contains the user. -/
def stepRemoval (uid : String) (st : RemovalState) (snap : Option (KvMap Participant)) :
    RemovalState :=
  if st.alerted then st
  else if presentIn uid snap then { st with wasInLobby := true }
  else if st.wasInLobby && snap.isSome then { st with alerted := true }
  else st

/-- The effect's state after a sequence of polled snapshots, starting from the
initial `wasInLobby = false`. -/
def runRemoval (uid : String) (snaps : List (Option (KvMap Participant))) : RemovalState :=
  snaps.foldl (stepRemoval uid) ⟨false, false⟩

/-! ### Vote-waiting screen counts (C10)

`VotingWaitingScreen` of src/app/votingWaiting.tsx lines 151-178 and the
waiting hint of lines 233-236. -/

/-- `participantsData ? Object.keys(participantsData).length : 0`. -/
def totalParticipants (pd : Option (KvMap Participant)) : Nat :=
  match pd with
  | none => 0
  | some m => (keysOf m).length

/-- `votesData ? Object.keys(votesData).length : 0`. -/
def votesSubmitted (vd : Option (KvMap VoteData)) : Nat :=
  match vd with
  | none => 0
  | some m => (keysOf m).length

/-- `votesRemaining = totalParticipants - votesSubmitted`, JS number
subtraction: exact and unclamped, so it can be negative. -/
def votesRemaining (pd : Option (KvMap Participant)) (vd : Option (KvMap VoteData)) : Int :=
  (totalParticipants pd : Int) - (votesSubmitted vd : Int)

/-- `everyoneHasVoted = votesRemaining === 0`. -/
def everyoneHasVoted (pd : Option (KvMap Participant)) (vd : Option (KvMap VoteData)) : Bool :=
  votesRemaining pd vd == 0

/-- The waiting hint of the not-everyone-has-voted branch:
`waiting for ${votesRemaining} more ${votesRemaining === 1 ? 'vote' : 'votes'}`. -/
def waitingHint (pd : Option (KvMap Participant)) (vd : Option (KvMap VoteData)) : String :=
  "waiting for " ++ toString (votesRemaining pd vd) ++ " more " ++
    (if votesRemaining pd vd == 1 then "vote" else "votes")

/-! ### Concrete inputs used by witnesses and counterexamples -/

/-- A session already in the voting phase. -/
def exampleLobbyVoting : LobbyData := ⟨"u0", "Alice", 0, "voting", "111111"⟩

/-- A store holding `exampleLobbyVoting` under id "L1" with its code indexed. -/
def exampleStoreVoting : Store :=
  ⟨[("L1", exampleLobbyVoting)], [("111111", "L1")], [], [], []⟩

/-- A session still in the waiting phase, created by "a". -/
def exampleLobbyWaiting : LobbyData := ⟨"a", "Alice", 0, "waiting", "222222"⟩

/-- Two non-creator participants whose snapshot order is oldest-joined-first. -/
def exampleParticipants : KvMap Participant :=
  [("b", ⟨"Bob", 1, false, none⟩), ("c", ⟨"Carol", 2, false, none⟩)]

/-- A stored vote. -/
def exampleVote : VoteData := ⟨"Bob", "great", "Carol", "oops", 3⟩

/-- A filled-in voting form. -/
def exampleForm : VoteForm := ⟨"Bob", "great", "Carol", "oops", 7⟩

/-! ## Theorems -/

/-- Looking up the key just written returns the written value. -/
theorem lookupKey_writeKey_self (k : String) (v : α) (m : KvMap α) :
    lookupKey k (writeKey k v m) = some v := by
  induction m with
  | nil => simp [writeKey, lookupKey]
  | cons e rest ih =>
    by_cases h : e.1 = k
    · simp [writeKey, h, lookupKey]
    · simp [writeKey, h, lookupKey, ih]

/-- Claim C4 counterexample: the ordering the claim asserts for the history
deletion does not hold of the code; the Code Index delete is not issued after
the Session delete (they are issued in the same concurrent batch), so the
claimed order is false. -/
theorem historyDelete_claimed_order_false : ¬ claimedHistoryDeleteOrder := by
  unfold claimedHistoryDeleteOrder issuedStrictlyBefore issueBatch historyDeleteBatches
  decide

/-- Claim C4 (amended): `handleDelete` completes the Participant-subtree
delete, then the Vote-subtree delete, and only then issues the Session, Code
Index and User History deletes — but those last three are issued concurrently
in a single `Promise.all` batch, with no ordering among them. -/
theorem historyDelete_batch_order :
    issuedStrictlyBefore DeleteTarget.participantsTree DeleteTarget.votesTree ∧
    issuedStrictlyBefore DeleteTarget.participantsTree DeleteTarget.session ∧
    issuedStrictlyBefore DeleteTarget.votesTree DeleteTarget.session ∧
    issueBatch DeleteTarget.session = issueBatch DeleteTarget.codeIndex ∧
    issueBatch DeleteTarget.codeIndex = issueBatch DeleteTarget.historyEntry := by
  unfold issuedStrictlyBefore issueBatch historyDeleteBatches
  decide

/-- Claim C9: the store-client read helpers return `null` when there is no
authenticated identity, when the request fails or returns a non-success
status, and when the key is missing; they return a value only when the key
exists and the request succeeds, and every branch resolves rather than
throwing. -/
theorem storeRead_null_on_failure (α : Type) (u : Option String) (r : FetchResult α)
    (e : SdkReadEvent α) (v : α) :
    readViaRest (α := α) none r = none ∧
    readViaRest u (FetchResult.netError : FetchResult α) = none ∧
    (∀ c, readViaRest u (FetchResult.httpNotOk c : FetchResult α) = none) ∧
    readViaRest u (FetchResult.ok (none : Option α)) = none ∧
    (readViaRest u r = some v ↔ u.isSome ∧ r = FetchResult.ok (some v)) ∧
    readData (SdkReadEvent.snapshot (none : Option α)) = none ∧
    readData (SdkReadEvent.error : SdkReadEvent α) = none ∧
    readData (SdkReadEvent.setupFailure : SdkReadEvent α) = none ∧
    (readData e = some v ↔ e = SdkReadEvent.snapshot (some v)) := by
  refine ⟨rfl, ?_, ?_, ?_, ?_, rfl, rfl, rfl, ?_⟩
  · cases u <;> rfl
  · intro c; cases u <;> rfl
  · cases u <;> rfl
  · cases u <;> cases r <;> simp [readViaRest]
  · cases e <;> simp [readData]

/-- Claim C10: on the vote-waiting screen `votesRemaining` is the exact
unclamped integer difference of the participant and vote counts; "Everyone has
voted" shows exactly when the counts are equal, and with more votes than
participants the difference is negative, the everyone-has-voted state is not
shown, and the negative count appears verbatim in the waiting hint. -/
theorem votesRemaining_unclamped (pd : Option (KvMap Participant))
    (vd : Option (KvMap VoteData)) :
    votesRemaining pd vd = (totalParticipants pd : Int) - (votesSubmitted vd : Int) ∧
    (everyoneHasVoted pd vd = true ↔ totalParticipants pd = votesSubmitted vd) ∧
    (totalParticipants pd < votesSubmitted vd →
      votesRemaining pd vd < 0 ∧ everyoneHasVoted pd vd = false ∧
      waitingHint pd vd = "waiting for " ++ toString (votesRemaining pd vd) ++ " more " ++ "votes") ∧
    waitingHint (some exampleParticipants)
        (some [("a", exampleVote), ("b", exampleVote), ("c", exampleVote)]) =
      "waiting for -1 more votes" := by
  refine ⟨rfl, ?_, ?_, by decide⟩
  · rw [everyoneHasVoted, beq_iff_eq, votesRemaining]
    omega
  · intro h
    have hlt : votesRemaining pd vd < 0 := by rw [votesRemaining]; omega
    have hne0 : (votesRemaining pd vd == 0) = false := by
      rw [beq_eq_false_iff_ne]; omega
    have hne1 : (votesRemaining pd vd == 1) = false := by
      rw [beq_eq_false_iff_ne]; omega
    exact ⟨hlt, by rw [everyoneHasVoted, hne0], by rw [waitingHint, hne1, if_neg Bool.false_ne_true]⟩

/-- Mapping the row ids of the non-host display rows recovers the snapshot
keys that survive the non-creator, nonempty-name filter, in snapshot order. -/
theorem displayRow_ids (cid : String) (m : KvMap Participant) :
    (m.filterMap (fun e =>
      if e.1 != cid && e.2.name != "" then
        some (⟨e.1, e.2.name, false, true, some (e.2.nameChangeRequested.getD false)⟩ :
          DisplayParticipant)
      else none)).map (fun p => p.id) =
    (m.filter (fun e => e.1 != cid && e.2.name != "")).map (fun e => e.1) := by
  induction m with
  | nil => rfl
  | cons e rest ih =>
    rw [List.filterMap_cons, List.filter_cons]
    cases h : (e.1 != cid && e.2.name != "")
    · exact ih
    · exact congrArg (List.cons e.1) ih

/-- Claim C5 counterexample: the waiting-room list does not order non-creator
participants newest-joined-first; on a snapshot whose map order is
oldest-first the built list keeps that order, differing from the
specification's newest-first list. -/
theorem waitingRoom_not_newest_first :
    buildParticipants (some exampleLobbyWaiting) (some exampleParticipants) ≠
      specWaitingRoomList (some exampleLobbyWaiting) (some exampleParticipants) := by
  decide

/-- Claim C5 (amended): the waiting-room list synthesizes the creator's row
from the session's `creatorId`/`creatorName` (falling back to "Host"), marks
it offline exactly when the creator has no participant entry, pins it first
regardless of join order — but lists the non-creator participants in the order
of the polled snapshot, not newest-joined-first. -/
theorem waitingRoom_display_amended (l : LobbyData) (pd : Option (KvMap Participant))
    (m : KvMap Participant) :
    (buildParticipants (some l) pd).head? =
      some ⟨l.creatorId, (if l.creatorName == "" then "Host" else l.creatorName), true,
        (match pd with
         | some m2 => (keysOf m2).contains l.creatorId
         | none => false), none⟩ ∧
    (buildParticipants (some l) (some m)).tail.map (fun p => p.id) =
      (m.filter (fun e => e.1 != l.creatorId && e.2.name != "")).map (fun e => e.1) ∧
    (buildParticipants (some l) none).tail = [] := by
  refine ⟨rfl, ?_, rfl⟩
  exact displayRow_ids l.creatorId m

/-- Claim C6: a join attempt against a session whose status is no longer
`"waiting"` surfaces the not-accepting-participants outcome and leaves the
whole store — in particular the Participant and User History subtrees —
unchanged. -/
theorem join_rejected_when_not_waiting (s : Store) (codeInput uid name : String) (now : Nat)
    (lobbyId : String) (lobby : LobbyData)
    (hname : (strTrim name) ≠ "") (hcode : (strTrim codeInput) ≠ "")
    (hresolve : lookupKey (strTrim codeInput) s.lobbyCodes = some lobbyId)
    (hlobby : lookupKey lobbyId s.lobbies = some lobby)
    (hstatus : lobby.status ≠ "waiting") :
    handleJoin s codeInput uid name now = (JoinOutcome.notAccepting, s) := by
  simp only [handleJoin, hresolve, hlobby]
  simp [hname, hcode, hstatus]

/-- Claim C6 witness: joining `exampleStoreVoting` (status `"voting"`) with
its own code is rejected with `notAccepting` and the store is unchanged. -/
theorem join_rejected_when_not_waiting_witness :
    handleJoin exampleStoreVoting "111111" "u2" "Bob" 5 =
      (JoinOutcome.notAccepting, exampleStoreVoting) :=
  join_rejected_when_not_waiting exampleStoreVoting "111111" "u2" "Bob" 5 "L1"
    exampleLobbyVoting (by decide) (by decide) (by decide) (by decide) (by decide)

/-- Claim C8: a completed `handleCreate` followed immediately by a join with
the generated code resolves the Code Index to the very session id the create
produced (the new session's status is `"waiting"`, so the join succeeds on
it). -/
theorem create_then_join_resolves (s : Store) (lobbyId code uid name : String) (now : Nat)
    (uid2 name2 : String) (now2 : Nat)
    (hname2 : (strTrim name2) ≠ "") (hcode : (strTrim code) = code) (hcodeNe : code ≠ "") :
    (handleJoin (handleCreate s lobbyId code uid name now) code uid2 name2 now2).1 =
      JoinOutcome.joined lobbyId := by
  have h1 : lookupKey code (handleCreate s lobbyId code uid name now).lobbyCodes =
      some lobbyId := lookupKey_writeKey_self code lobbyId s.lobbyCodes
  have h2 : lookupKey lobbyId (handleCreate s lobbyId code uid name now).lobbies =
      some ⟨uid, (strTrim name), now, "waiting", code⟩ :=
    lookupKey_writeKey_self lobbyId _ s.lobbies
  simp only [handleJoin, hcode, h1, h2]
  simp [hname2, hcodeNe]

/-- Claim C8 witness: creating a session in an empty store and immediately
joining with the generated code lands in that session. -/
theorem create_then_join_resolves_witness :
    (handleJoin (handleCreate ⟨[], [], [], [], []⟩ "L9" "345678" "u0" "Alice" 1)
        "345678" "u2" "Bob" 2).1 = JoinOutcome.joined "L9" :=
  create_then_join_resolves ⟨[], [], [], [], []⟩ "L9" "345678" "u0" "Alice" 1 "u2" "Bob" 2
    (by decide) (by decide) (by decide)

/-- A key the map does not hold is counted zero times. -/
theorem countKey_eq_zero_of_lookup_none (k : String) (m : KvMap α)
    (h : lookupKey k m = none) : countKey k m = 0 := by
  induction m with
  | nil => rfl
  | cons e rest ih =>
    rw [lookupKey] at h
    by_cases he : e.1 = k
    · simp [he] at h
    · rw [if_neg he] at h
      have hrest := ih h
      rw [countKey] at hrest ⊢
      simp [List.filter_cons, he, hrest]

/-- Writing a key the map does not hold appends exactly one entry for it. -/
theorem countKey_writeKey_of_lookup_none (k : String) (v : α) (m : KvMap α)
    (h : lookupKey k m = none) : countKey k (writeKey k v m) = 1 := by
  induction m with
  | nil => simp [writeKey, countKey]
  | cons e rest ih =>
    rw [lookupKey] at h
    by_cases he : e.1 = k
    · simp [he] at h
    · rw [if_neg he] at h
      have hrest := ih h
      rw [countKey] at hrest ⊢
      rw [writeKey, if_neg he, List.filter_cons]
      simp [he, hrest]

/-- One `handleSubmit` call keeps the caller's entry count at most one. -/
theorem countKey_handleSubmit_le (votes : KvMap VoteData) (uid : String) (f : VoteForm)
    (h : countKey uid votes ≤ 1) : countKey uid (handleSubmit votes uid f).2 ≤ 1 := by
  rw [handleSubmit]
  by_cases hv : voteFormValid f = false
  · simpa [hv] using h
  · rw [if_neg hv]
    cases hl : lookupKey uid votes with
    | some w => simpa using h
    | none => simp [countKey_writeKey_of_lookup_none uid _ votes hl]

/-- Claim C1: across any sequence of `handleSubmit` calls issued sequentially
from one identity, at most one vote entry is ever keyed by that identity; and
a call finding an existing entry surfaces "Already Voted" and performs no
write, leaving the votes subtree unchanged. -/
theorem submitVote_at_most_once (votes : KvMap VoteData) (uid : String)
    (forms : List VoteForm) (f : VoteForm)
    (hcount : countKey uid votes ≤ 1) :
    countKey uid (submitMany votes uid forms) ≤ 1 ∧
    (∀ v, lookupKey uid votes = some v → voteFormValid f = true →
      handleSubmit votes uid f = (SubmitOutcome.alreadyVoted, votes)) := by
  constructor
  · rw [submitMany]
    induction forms generalizing votes with
    | nil => exact hcount
    | cons g rest ih => exact ih _ (countKey_handleSubmit_le votes uid g hcount)
  · intro v hv hval
    rw [handleSubmit, if_neg (by simp [hval]), hv]

/-- Claim C1 witness: with one stored vote for "u", two further submissions
from "u" leave the count at one, and a valid resubmission is rejected with
"Already Voted" and no write. -/
theorem submitVote_at_most_once_witness :
    countKey "u" (submitMany [("u", exampleVote)] "u" [exampleForm, exampleForm]) ≤ 1 ∧
    (∀ v, lookupKey "u" [("u", exampleVote)] = some v → voteFormValid exampleForm = true →
      handleSubmit [("u", exampleVote)] "u" exampleForm =
        (SubmitOutcome.alreadyVoted, [("u", exampleVote)])) :=
  submitVote_at_most_once [("u", exampleVote)] "u" [exampleForm, exampleForm] exampleForm
    (by decide)

/-- The observed status sequence always starts with the current status. -/
theorem observedStatuses_head (l : LobbyData) (ops : List PhaseOp) :
    (observedStatuses l ops).head? = some l.status := by
  cases ops <;> rfl

/-- Each phase-advance handler moves the status strictly up the lifecycle
order when issued from the screen of the phase it leaves. -/
theorem phaseIdx_applyOp_lt (l : LobbyData) (op : PhaseOp) (h : l.status = opScreen op) :
    phaseIdx l.status < phaseIdx (applyOp l op).status := by
  rw [h]
  cases op <;> simp [applyOp, opScreen, handleStartVoting, handleGoToResults,
    handleGoToRanking, phaseIdx]

/-- Claim C2: under a sequence of phase-advance operations each issued by the
creator from the screen of the phase it leaves, the observed `status` sequence
is non-decreasing in the order waiting < voting < results < ranking; no
operation writes an earlier phase over a later one. -/
theorem phase_status_monotone (l : LobbyData) (ops : List PhaseOp)
    (h : issuedFromOwnScreen l ops) :
    (observedStatuses l ops).Chain' (fun a b => phaseIdx a ≤ phaseIdx b) := by
  induction ops generalizing l with
  | nil => exact List.chain'_singleton _
  | cons op rest ih =>
    obtain ⟨h1, h2⟩ := h
    rw [observedStatuses, List.chain'_cons']
    refine ⟨?_, ih _ h2⟩
    intro b hb
    rw [observedStatuses_head] at hb
    cases hb
    exact Nat.le_of_lt (phaseIdx_applyOp_lt l op h1)

/-- Claim C2 witness: the creator's full run waiting → voting → results →
ranking yields a non-decreasing observed status sequence. -/
theorem phase_status_monotone_witness :
    (observedStatuses exampleLobbyWaiting
        [PhaseOp.startVoting, PhaseOp.goToResults, PhaseOp.goToRanking]).Chain'
      (fun a b => phaseIdx a ≤ phaseIdx b) :=
  phase_status_monotone exampleLobbyWaiting
    [PhaseOp.startVoting, PhaseOp.goToResults, PhaseOp.goToRanking]
    ⟨rfl, rfl, rfl, trivial⟩

/-- If the removal effect has alerted, it either started alerted or already
marked as in the lobby, or some processed snapshot contained the user. -/
theorem runRemoval_alerted_cases (uid : String)
    (snaps : List (Option (KvMap Participant))) (st : RemovalState)
    (h : (snaps.foldl (stepRemoval uid) st).alerted = true) :
    st.alerted = true ∨ st.wasInLobby = true ∨
      ∃ snap ∈ snaps, presentIn uid snap = true := by
  induction snaps generalizing st with
  | nil => exact Or.inl h
  | cons s rest ih =>
    rw [List.foldl_cons] at h
    rcases ih (stepRemoval uid st s) h with h1 | h2 | ⟨x, hx, hp⟩
    · rw [stepRemoval] at h1
      by_cases ha : st.alerted = true
      · exact Or.inl ha
      · rw [if_neg (by simp [ha])] at h1
        by_cases hp : presentIn uid s = true
        · exact Or.inr (Or.inr ⟨s, List.mem_cons_self s rest, hp⟩)
        · rw [if_neg (by simp [hp])] at h1
          by_cases hw : (st.wasInLobby && s.isSome) = true
          · exact Or.inr (Or.inl (Bool.and_elim_left hw))
          · rw [if_neg (by simp [hw])] at h1
            exact Or.inl h1
    · rw [stepRemoval] at h2
      by_cases ha : st.alerted = true
      · exact Or.inl ha
      · rw [if_neg (by simp [ha])] at h2
        by_cases hp : presentIn uid s = true
        · exact Or.inr (Or.inr ⟨s, List.mem_cons_self s rest, hp⟩)
        · rw [if_neg (by simp [hp])] at h2
          by_cases hw : (st.wasInLobby && s.isSome) = true
          · exact Or.inr (Or.inl (Bool.and_elim_left hw))
          · rw [if_neg (by simp [hw])] at h2
            exact Or.inr (Or.inl h2)
    · exact Or.inr (Or.inr ⟨x, List.mem_cons_of_mem s hx, hp⟩)

/-- Claim C7: on a non-creator's device, a participant never observed as
present across all polled snapshots never triggers the removed-by-host alert;
the alert presupposes an earlier snapshot containing the user's own id. -/
theorem removal_requires_prior_presence (uid : String)
    (snaps : List (Option (KvMap Participant))) :
    ((∀ snap ∈ snaps, presentIn uid snap = false) →
      (runRemoval uid snaps).alerted = false) ∧
    ((runRemoval uid snaps).alerted = true →
      ∃ snap ∈ snaps, presentIn uid snap = true) := by
  have key : (runRemoval uid snaps).alerted = true →
      ∃ snap ∈ snaps, presentIn uid snap = true := by
    intro h
    rcases runRemoval_alerted_cases uid snaps ⟨false, false⟩ h with h1 | h2 | h3
    · exact absurd h1 (by simp)
    · exact absurd h2 (by simp)
    · exact h3
  refine ⟨?_, key⟩
  intro habs
  cases ha : (runRemoval uid snaps).alerted
  · rfl
  · obtain ⟨snap, hmem, hp⟩ := key ha
    rw [habs snap hmem] at hp
    exact absurd hp (by simp)

/-- The first occurrence of a present name lies inside the list. -/
theorem firstIdx_lt_length (nm : String) (l : List String) (h : nm ∈ l) :
    firstIdx nm l < l.length := by
  induction l with
  | nil => cases h
  | cons a rest ih =>
    rw [firstIdx]
    by_cases ha : a = nm
    · simp [ha]
    · rw [if_neg ha]
      have : nm ∈ rest := by
        rcases List.mem_cons.mp h with rfl | hr
        · exact absurd rfl ha
        · exact hr
      simpa [List.length_cons] using ih this

/-- Appending on the right does not move the first occurrence of a name that
is already present. -/
theorem firstIdx_append_of_mem (nm : String) (l l2 : List String) (h : nm ∈ l) :
    firstIdx nm (l ++ l2) = firstIdx nm l := by
  induction l with
  | nil => cases h
  | cons a rest ih =>
    rw [List.cons_append, firstIdx, firstIdx]
    by_cases ha : a = nm
    · simp [ha]
    · rw [if_neg ha, if_neg ha]
      have : nm ∈ rest := by
        rcases List.mem_cons.mp h with rfl | hr
        · exact absurd rfl ha
        · exact hr
      rw [ih this]

/-- A name first appended at the end first occurs at the old length. -/
theorem firstIdx_append_self (nm : String) (l : List String) (h : nm ∉ l) :
    firstIdx nm (l ++ [nm]) = l.length := by
  induction l with
  | nil => simp [firstIdx]
  | cons a rest ih =>
    rw [List.cons_append, firstIdx]
    have ha : a ≠ nm := fun hh => h (hh ▸ List.mem_cons_self a rest)
    rw [if_neg ha, ih (fun hr => h (List.mem_cons_of_mem a hr)), List.length_cons]

/-- Bumping a count keeps the name list, appending the name when fresh. -/
theorem bumpCount_names (l : List RankingEntry) (nm : String) :
    (bumpCount l nm).map (fun e => e.name) =
      if nm ∈ l.map (fun e => e.name) then l.map (fun e => e.name)
      else l.map (fun e => e.name) ++ [nm] := by
  induction l with
  | nil => simp [bumpCount]
  | cons e rest ih =>
    rw [bumpCount]
    by_cases he : e.name = nm
    · simp [he]
    · rw [if_neg he, List.map_cons, List.map_cons, ih]
      by_cases hm : nm ∈ rest.map (fun e => e.name)
      · rw [if_pos hm, if_pos (List.mem_cons_of_mem _ hm)]
      · rw [if_neg hm, if_neg (by
          intro hc
          rcases List.mem_cons.mp hc with hc1 | hc2
          · exact he hc1.symm
          · exact hm hc2), List.cons_append]

/-- How a bump changes lookups: the bumped name gains one, others are
untouched. -/
theorem bumpCount_lookup (l : List RankingEntry) (nm n : String) :
    lookupVotes nm (bumpCount l n) =
      if nm = n then some (((lookupVotes nm l).getD 0) + 1) else lookupVotes nm l := by
  induction l with
  | nil =>
    by_cases h : nm = n
    · subst h; simp [bumpCount, lookupVotes]
    · have hn : ¬ n = nm := fun hh => h hh.symm
      simp [bumpCount, lookupVotes, h, hn]
  | cons e rest ih =>
    rw [bumpCount]
    by_cases he : e.name = n
    · rw [if_pos he]
      by_cases h : nm = n
      · subst h
        rw [lookupVotes, if_pos rfl, lookupVotes, if_pos he, if_pos rfl]
        rfl
      · rw [lookupVotes, if_neg (fun hh => h hh.symm), if_neg h, lookupVotes,
          if_neg (he ▸ fun hh => h hh.symm)]
    · rw [if_neg he]
      by_cases hm : e.name = nm
      · have h : ¬ nm = n := fun hh => he (hm.trans hh)
        rw [lookupVotes, if_pos hm, if_neg h, lookupVotes, if_pos hm]
      · rw [lookupVotes, if_neg hm, ih, lookupVotes, if_neg hm]

/-- Aggregating one more vote bumps the aggregate. -/
theorem countsOfNames_append (names : List String) (n : String) :
    countsOfNames (names ++ [n]) = bumpCount (countsOfNames names) n := by
  rw [countsOfNames, countsOfNames, List.foldl_append]
  rfl

/-- The aggregate's lookup is exactly the occurrence count, present iff
nonzero. -/
theorem lookupVotes_countsOfNames (names : List String) (nm : String) :
    lookupVotes nm (countsOfNames names) =
      if names.countP (fun x => x == nm) = 0 then none
      else some (names.countP (fun x => x == nm)) := by
  induction names using List.reverseRecOn with
  | nil => rfl
  | append_singleton ns n ih =>
    rw [countsOfNames_append, bumpCount_lookup, List.countP_append]
    by_cases h : nm = n
    · subst h
      have h1 : List.countP (fun x => x == nm) [nm] = 1 := by simp
      rw [if_pos rfl, ih, h1]
      by_cases hc : ns.countP (fun x => x == nm) = 0
      · rw [hc, if_pos rfl, if_neg (by omega)]
        rfl
      · rw [if_neg hc, if_neg (by omega)]
        rfl
    · have h0 : List.countP (fun x => x == nm) [n] = 0 := by
        simp [beq_iff_eq]
        exact fun hh => h hh.symm
      rw [if_neg h, ih, h0, Nat.add_zero]

/-- A name appears in the aggregate iff it appears among the votes' names. -/
theorem mem_names_countsOfNames (names : List String) (nm : String) :
    nm ∈ (countsOfNames names).map (fun e => e.name) ↔ nm ∈ names := by
  induction names using List.reverseRecOn with
  | nil => simp [countsOfNames]
  | append_singleton ns n ih =>
    rw [countsOfNames_append, bumpCount_names]
    by_cases h : n ∈ (countsOfNames ns).map (fun e => e.name)
    · rw [if_pos h, ih, List.mem_append, List.mem_singleton]
      constructor
      · exact Or.inl
      · rintro (hh | rfl)
        · exact hh
        · exact ih.mp h
    · rw [if_neg h, List.mem_append, List.mem_append, List.mem_singleton, ih]

/-- The aggregate lists names in first-encounter order. -/
theorem pairwise_firstIdx_countsOfNames (names : List String) :
    ((countsOfNames names).map (fun e => e.name)).Pairwise
      (fun a b => firstIdx a names < firstIdx b names) := by
  induction names using List.reverseRecOn with
  | nil => simp [countsOfNames]
  | append_singleton ns n ih =>
    rw [countsOfNames_append, bumpCount_names]
    by_cases h : n ∈ (countsOfNames ns).map (fun e => e.name)
    · rw [if_pos h]
      refine ih.imp_of_mem ?_
      intro a b ha hb hr
      rw [firstIdx_append_of_mem a ns [n] ((mem_names_countsOfNames ns a).mp ha),
        firstIdx_append_of_mem b ns [n] ((mem_names_countsOfNames ns b).mp hb)]
      exact hr
    · rw [if_neg h, List.pairwise_append]
      refine ⟨?_, List.pairwise_singleton _ _, ?_⟩
      · refine ih.imp_of_mem ?_
        intro a b ha hb hr
        rw [firstIdx_append_of_mem a ns [n] ((mem_names_countsOfNames ns a).mp ha),
          firstIdx_append_of_mem b ns [n] ((mem_names_countsOfNames ns b).mp hb)]
        exact hr
      · intro a ha b hb
        rw [List.mem_singleton] at hb
        have hn : n ∉ ns := fun hc => h ((mem_names_countsOfNames ns n).mpr hc)
        have ha2 : a ∈ ns := (mem_names_countsOfNames ns a).mp ha
        rw [hb, firstIdx_append_of_mem a ns [n] ha2, firstIdx_append_self n ns hn]
        exact firstIdx_lt_length a ns ha2

/-- Membership through a descending insertion. -/
theorem mem_insertDesc (x a : RankingEntry) (l : List RankingEntry) :
    a ∈ insertDesc x l ↔ a = x ∨ a ∈ l := by
  induction l with
  | nil => simp [insertDesc]
  | cons y ys ih =>
    rw [insertDesc]
    by_cases h : x.votes < y.votes
    · rw [if_pos h, List.mem_cons, ih, List.mem_cons]
      tauto
    · rw [if_neg h, List.mem_cons, List.mem_cons]

/-- Membership through the descending sort. -/
theorem mem_sortDescByVotes (a : RankingEntry) (l : List RankingEntry) :
    a ∈ sortDescByVotes l ↔ a ∈ l := by
  induction l with
  | nil => simp [sortDescByVotes]
  | cons x xs ih =>
    show a ∈ insertDesc x (sortDescByVotes xs) ↔ _
    rw [mem_insertDesc, ih, List.mem_cons]

/-- A descending insertion permutes consing. -/
theorem insertDesc_perm (x : RankingEntry) (l : List RankingEntry) :
    List.Perm (insertDesc x l) (x :: l) := by
  induction l with
  | nil => rfl
  | cons y ys ih =>
    rw [insertDesc]
    by_cases h : x.votes < y.votes
    · rw [if_pos h]
      exact (ih.cons y).trans (List.Perm.swap x y ys)
    · rw [if_neg h]

/-- The descending sort permutes its input. -/
theorem sortDescByVotes_perm (l : List RankingEntry) : List.Perm (sortDescByVotes l) l := by
  induction l with
  | nil => rfl
  | cons x xs ih =>
    show List.Perm (insertDesc x (sortDescByVotes xs)) (x :: xs)
    exact (insertDesc_perm x (sortDescByVotes xs)).trans (ih.cons x)

/-- Inserting below an index-respecting list preserves the combined
"more votes, or equal votes and smaller index" order, provided the inserted
entry's index beats every equal-votes entry already present. -/
theorem insertDesc_pairwise (idx : RankingEntry → Nat) (x : RankingEntry)
    (l : List RankingEntry)
    (hq : ∀ y ∈ l, x.votes = y.votes → idx x < idx y)
    (hl : l.Pairwise (fun a b => b.votes < a.votes ∨ (b.votes = a.votes ∧ idx a < idx b))) :
    (insertDesc x l).Pairwise
      (fun a b => b.votes < a.votes ∨ (b.votes = a.votes ∧ idx a < idx b)) := by
  induction l with
  | nil => exact List.pairwise_singleton _ _
  | cons y ys ih =>
    obtain ⟨hy, hys⟩ := List.pairwise_cons.mp hl
    rw [insertDesc]
    by_cases h : x.votes < y.votes
    · rw [if_pos h]
      refine List.pairwise_cons.mpr ⟨?_, ih (fun z hz hv => hq z (List.mem_cons_of_mem _ hz) hv) hys⟩
      intro z hz
      rcases (mem_insertDesc x z ys).mp hz with rfl | hzys
      · exact Or.inl h
      · exact hy z hzys
    · rw [if_neg h]
      have hxy : y.votes ≤ x.votes := Nat.le_of_not_lt h
      refine List.pairwise_cons.mpr ⟨?_, hl⟩
      intro z hz
      rcases List.mem_cons.mp hz with rfl | hzys
      · rcases Nat.lt_or_ge z.votes x.votes with h1 | h2
        · exact Or.inl h1
        · have he : z.votes = x.votes := Nat.le_antisymm hxy h2
          exact Or.inr ⟨he, hq z (List.mem_cons_self z ys) he.symm⟩
      · rcases hy z hzys with hlt | ⟨heq, hq2⟩
        · exact Or.inl (Nat.lt_of_lt_of_le hlt hxy)
        · rcases Nat.lt_or_ge y.votes x.votes with h1 | h2
          · exact Or.inl (heq ▸ h1)
          · have hyx : y.votes = x.votes := Nat.le_antisymm hxy h2
            exact Or.inr ⟨heq.trans hyx, hq z (List.mem_cons_of_mem _ hzys)
              ((heq.trans hyx).symm)⟩

/-- Sorting an index-ordered list yields the combined descending order: more
votes first, and first-encountered first among equal votes. -/
theorem sortDescByVotes_pairwise (idx : RankingEntry → Nat) (l : List RankingEntry)
    (hq : l.Pairwise (fun a b => idx a < idx b)) :
    (sortDescByVotes l).Pairwise
      (fun a b => b.votes < a.votes ∨ (b.votes = a.votes ∧ idx a < idx b)) := by
  induction l with
  | nil => exact List.Pairwise.nil
  | cons x xs ih =>
    obtain ⟨hx, hxs⟩ := List.pairwise_cons.mp hq
    show (insertDesc x (sortDescByVotes xs)).Pairwise _
    refine insertDesc_pairwise idx x (sortDescByVotes xs) ?_ (ih hxs)
    intro y hy _
    exact hx y ((mem_sortDescByVotes y xs).mp hy)

/-- When the ranking's names are distinct, `lookupVotes` coincides with
membership. -/
theorem lookupVotes_iff_mem (l : List RankingEntry)
    (hn : (l.map (fun e => e.name)).Nodup) (nm : String) (k : Nat) :
    lookupVotes nm l = some k ↔ (⟨nm, k⟩ : RankingEntry) ∈ l := by
  induction l with
  | nil => simp [lookupVotes]
  | cons e rest ih =>
    rw [List.map_cons, List.nodup_cons] at hn
    rw [lookupVotes, List.mem_cons]
    by_cases he : e.name = nm
    · rw [if_pos he]
      constructor
      · intro hk
        left
        cases e
        cases hk
        cases he
        rfl
      · rintro (rfl | hmem)
        · rfl
        · exact absurd (he ▸ List.mem_map_of_mem (fun e => e.name) hmem) hn.1
    · rw [if_neg he, ih hn.2]
      constructor
      · exact Or.inr
      · rintro (rfl | hmem)
        · exact absurd rfl he
        · exact hmem

/-- The aggregate's names are distinct. -/
theorem names_countsOfNames_nodup (names : List String) :
    ((countsOfNames names).map (fun e => e.name)).Nodup :=
  (pairwise_firstIdx_countsOfNames names).imp
    (fun h => fun hab => absurd (hab ▸ h) (Nat.lt_irrefl _))

/-- Ranking lookup equals the occurrence count of the name among the votes,
present exactly when nonzero. -/
theorem ranking_lookup_counts (names : List String) (nm : String) (k : Nat) :
    lookupVotes nm (sortDescByVotes (countsOfNames names)) = some k ↔
      (k = names.countP (fun x => x == nm) ∧ k ≠ 0) := by
  have hnodupCs := names_countsOfNames_nodup names
  have hperm := sortDescByVotes_perm (countsOfNames names)
  have hnodup : ((sortDescByVotes (countsOfNames names)).map (fun e => e.name)).Nodup :=
    ((hperm.map (fun e => e.name)).nodup_iff).mpr hnodupCs
  rw [lookupVotes_iff_mem _ hnodup, mem_sortDescByVotes,
    ← lookupVotes_iff_mem _ hnodupCs, lookupVotes_countsOfNames]
  by_cases hc : names.countP (fun x => x == nm) = 0
  · rw [if_pos hc, hc]
    constructor
    · intro hcontra; cases hcontra
    · rintro ⟨rfl, hne⟩
      exact absurd rfl hne
  · rw [if_neg hc]
    constructor
    · intro hk
      cases hk
      exact ⟨rfl, hc⟩
    · rintro ⟨rfl, _⟩
      rfl

/-- The ranking is sorted descending by vote count. -/
theorem ranking_sorted (names : List String) :
    (sortDescByVotes (countsOfNames names)).Pairwise (fun a b => b.votes ≤ a.votes) := by
  have hq : (countsOfNames names).Pairwise
      (fun a b => firstIdx a.name names < firstIdx b.name names) :=
    (List.pairwise_map (R := fun a b => firstIdx a names < firstIdx b names)
      (f := fun e : RankingEntry => e.name)).mp (pairwise_firstIdx_countsOfNames names)
  refine (sortDescByVotes_pairwise (fun e => firstIdx e.name names) _ hq).imp ?_
  rintro a b (hlt | ⟨heq, _⟩)
  · exact Nat.le_of_lt hlt
  · exact Nat.le_of_eq heq

/-- Equal-count entries of the ranking keep the order their names were first
encountered during aggregation. -/
theorem ranking_tiebreak (names : List String) :
    (sortDescByVotes (countsOfNames names)).Pairwise
      (fun a b => a.votes = b.votes → firstIdx a.name names < firstIdx b.name names) := by
  have hq : (countsOfNames names).Pairwise
      (fun a b => firstIdx a.name names < firstIdx b.name names) :=
    (List.pairwise_map (R := fun a b => firstIdx a names < firstIdx b names)
      (f := fun e : RankingEntry => e.name)).mp (pairwise_firstIdx_countsOfNames names)
  refine (sortDescByVotes_pairwise (fun e => firstIdx e.name names) _ hq).imp ?_
  rintro a b (hlt | ⟨heq, hidx⟩)
  · intro hab
    exact absurd (hab ▸ hlt) (Nat.lt_irrefl _)
  · intro _
    exact hidx

/-- Claim C3: for each name field, `calculateRankings` assigns each distinct
name its exact occurrence count across the Vote entries, lists names in
descending count order, breaks equal counts by first-encounter order during
aggregation, and an empty votes map yields empty rankings rendered as
"No votes". -/
theorem calculateRankings_correct (votesMap : KvMap VoteData) :
    (∀ nm k, lookupVotes nm (calculateRankings votesMap).1 = some k ↔
      (k = ((votesMap.map (fun e => e.2)).map (fun v => v.mvpName)).countP (fun x => x == nm) ∧
        k ≠ 0)) ∧
    (∀ nm k, lookupVotes nm (calculateRankings votesMap).2 = some k ↔
      (k = ((votesMap.map (fun e => e.2)).map (fun v => v.loserName)).countP (fun x => x == nm) ∧
        k ≠ 0)) ∧
    (calculateRankings votesMap).1.Pairwise (fun a b => b.votes ≤ a.votes) ∧
    (calculateRankings votesMap).2.Pairwise (fun a b => b.votes ≤ a.votes) ∧
    (calculateRankings votesMap).1.Pairwise (fun a b => a.votes = b.votes →
      firstIdx a.name ((votesMap.map (fun e => e.2)).map (fun v => v.mvpName)) <
        firstIdx b.name ((votesMap.map (fun e => e.2)).map (fun v => v.mvpName))) ∧
    (calculateRankings votesMap).2.Pairwise (fun a b => a.votes = b.votes →
      firstIdx a.name ((votesMap.map (fun e => e.2)).map (fun v => v.loserName)) <
        firstIdx b.name ((votesMap.map (fun e => e.2)).map (fun v => v.loserName))) ∧
    (votesMap = [] → calculateRankings votesMap = ([], []) ∧
      showsNoVotes (calculateRankings votesMap).1 = true ∧
      showsNoVotes (calculateRankings votesMap).2 = true) := by
  refine ⟨fun nm k => ranking_lookup_counts _ nm k,
    fun nm k => ranking_lookup_counts _ nm k,
    ranking_sorted _, ranking_sorted _, ranking_tiebreak _, ranking_tiebreak _, ?_⟩
  rintro rfl
  exact ⟨rfl, rfl, rfl⟩

end VotingApp
